import Mathlib

/-! Trusted-group MVM: quorum engine and status RPC.

A shallow embedding of `mvm/quorum/engine.go` (address verification, notifier
setup and the inbound log loop) and of `mvm/rpc/http.go` (the JSON status
handler), followed by the properties established about them.

Conventions of the embedding:

* Go `uint64` values are natural numbers below `U64 = 2 ^ 64`; every `+` of the
  source on such values is followed by `% U64`.
* A Go `panic` is the `Result.panicked` outcome; an `(value, error)` pair
  returned by a collaborator is an `Except String`.
* Calls to collaborators with an effect (RPC fetches, store writes, sleeps) are
  recorded, in program order, in a list of `Action`s.
-/

namespace Quorum

/-- Number of distinct values of a Go `uint64`. -/
def U64 : Nat := 2 ^ 64

/-- Go `time.Second`, in nanoseconds (the unit of `time.Duration`). -/
def Second : Nat := 1000000000

/-- Source: `ClockTick = 3 * time.Second`. -/
def ClockTick : Nat := 3 * Second

/-- Source: `EventTopic`, the topic of `event MixinTransaction(bytes)`. -/
def EventTopic : String :=
  "0xdb53e751d28ed0d6e3682814bf8d23f7dd7b29c94f74a56fbb7f88e9dca9f39b"

/-- Byte strings (`[]byte`). -/
abbrev Bytes := List Nat

/-- Outcome of running a piece of Go code: it either panics or returns. -/
inductive Result (α : Type) where
  | panicked (msg : String)
  | returned (val : α)
deriving Repr, DecidableEq

/-- The `encoding.Event` record. The engine only inspects `Nonce` (a `uint64`);
the remaining fields are carried along unread in `Rest`. -/
structure Event where
  Nonce : Nat
  Rest : Bytes
deriving Repr, DecidableEq

/-- Notifier record kept per contract address: the key and the state string
handed to `storeWriteContractNotifier`. -/
structure Notifier where
  key : String
  state : String
deriving Repr, DecidableEq

/-- The part of the engine's key-value store that the embedded functions use:
the contract-logs offset cursor and the notifier record of every address. -/
structure Store where
  logsOffset : String → Nat
  notifier : String → Option Notifier

/-- Modelled from the spec: `storeReadContractLogsOffset` is not part of the
available sources; `read_offset` returns the stored cursor of the address. -/
def storeReadContractLogsOffset (s : Store) (address : String) : Nat :=
  s.logsOffset address

/-- Modelled from the spec: `storeWriteContractLogsOffset` is not part of the
available sources; `write_offset` is "monotonic; a write with `offset` less
than the current value is a no-op". -/
def storeWriteContractLogsOffset (s : Store) (address : String) (offset : Nat) : Store :=
  if offset < s.logsOffset address then s
  else { s with logsOffset := fun a => if a = address then offset else s.logsOffset a }

/-- Modelled from the spec: `storeWriteContractNotifier` is not part of the
available sources; the store is "a transactional key-value store exposing typed
accessors", so the write accessor puts the record under the address and
reports no error. -/
def storeWriteContractNotifier (s : Store) (address key state : String) :
    Option String × Store :=
  (none, { s with notifier := fun a => if a = address then some ⟨key, state⟩ else s.notifier a })

/-- Modelled from the spec: `storeReadContractNotifier` is not part of the
available sources; it reads back the record put under the address. -/
def storeReadContractNotifier (s : Store) (address : String) : Option Notifier :=
  s.notifier address

/-- Effects of the engine on its collaborators, in the order they are issued. -/
inductive Action where
  | GetLogs (address topic : String) (lo hi : Nat)
  | WriteContractEvent (address : String) (evt : Event)
  | WriteContractLogsOffset (address : String) (offset : Nat)
  | Sleep (duration : Nat)
deriving Repr, DecidableEq

/-- Go `strings.HasPrefix` on character lists. -/
def hasPrefixChars : List Char → List Char → Bool
  | _, [] => true
  | [], _ :: _ => false
  | c :: cs, p :: ps => c == p && hasPrefixChars cs ps

/-- Go `strings.Contains` on character lists. -/
def containsChars : List Char → List Char → Bool
  | [], sub => hasPrefixChars [] sub
  | c :: cs, sub => hasPrefixChars (c :: cs) sub || containsChars cs sub

/-- Go `strings.Contains`. -/
def stringsContains (s sub : String) : Bool :=
  containsChars s.data sub.data

/-- Source: `Engine.VerifyAddress`.

`ethVerifyAddress` is `ethereum.VerifyAddress` of the Mixin library (`none` is
a nil error); `GetBlockHeight` and `GetContractBirthBlock` are the answers of
the chain RPC client. The result pairs the returned error with the store. -/
def VerifyAddress (ethVerifyAddress : String → Option String)
    (GetBlockHeight : Except String Nat)
    (GetContractBirthBlock : String → Bytes → Except String Nat)
    (s : Store) (address : String) (hash : Bytes) : Result (Option String × Store) :=
  match ethVerifyAddress address with
  | some err => .returned (some err, s)
  | none =>
    match GetBlockHeight with
    | .error err => .panicked err
    | .ok height =>
      match GetContractBirthBlock address hash with
      | .error err =>
        if stringsContains err "malformed" then .returned (some err, s)
        else .panicked err
      | .ok birth =>
        if height < (birth + 128) % U64 then
          .returned (some ("too young " ++ toString birth ++ " " ++ toString height), s)
        else
          .returned (none, storeWriteContractLogsOffset s address birth)

/-- Source: `Engine.SetupNotifier`. The key derivation is a comment only in the
source; the body writes the empty key and the state `"initial"`. -/
def SetupNotifier (s : Store) (address : String) : Option String × Store :=
  let key := ""
  storeWriteContractNotifier s address key "initial"

/-- First loop of the body of `loopGetLogs` (lines 113-120): decode every log,
panicking on the first one that does not decode. `DecodeEvent` is
`encoding.DecodeEvent`. -/
def decodeLogs (DecodeEvent : Bytes → Except String Event) :
    List Bytes → Result (List Event)
  | [] => .returned []
  | b :: logs =>
    match DecodeEvent b with
    | .error err => .panicked err
    | .ok evt =>
      match decodeLogs DecodeEvent logs with
      | .panicked err => .panicked err
      | .returned evts => .returned (evt :: evts)

/-- Insertion of one event into a list ordered by `Nonce`. -/
def insertByNonce (e : Event) : List Event → List Event
  | [] => [e]
  | x :: xs => if e.Nonce < x.Nonce then e :: x :: xs else x :: insertByNonce e xs

/-- Source: `sort.Slice(evts, func(i, j int) bool { return evts[i].Nonce < evts[j].Nonce })`.
The Go sort is not stable; this is one of its admissible outcomes, and all of
them carry the same sequence of nonces. -/
def sortSlice : List Event → List Event
  | [] => []
  | e :: es => insertByNonce e (sortSlice es)

/-- Second loop of the body of `loopGetLogs` (lines 122-131), over the sorted
events: skip nonces below the expected one, stop at the first nonce above it,
otherwise write the event and increment the expected nonce. Returns the store
writes issued and the expected nonce at loop exit. -/
def rangeEvts (address : String) : Nat → List Event → List Action × Nat
  | nonce, [] => ([], nonce)
  | nonce, evt :: evts =>
    if evt.Nonce < nonce then rangeEvts address nonce evts
    else if evt.Nonce > nonce then ([], nonce)
    else
      let r := rangeEvts address ((nonce + 1) % U64) evts
      (Action.WriteContractEvent address evt :: r.1, r.2)

/-- State at the end of one pass through the body of the `for` loop. -/
structure IterOut where
  trace : List Action
  nonce : Nat
  store : Store

/-- Source: one pass through the body of the `for` loop of `Engine.loopGetLogs`
(lines 108-135), started with expected nonce `nonce`. `GetLogs` is the RPC
client's `GetLogs` at the time of the call. -/
def loopGetLogsIter (GetLogs : String → String → Nat → Nat → Except String (List Bytes))
    (DecodeEvent : Bytes → Except String Event)
    (address : String) (s : Store) (nonce : Nat) : Result IterOut :=
  let offset := storeReadContractLogsOffset s address
  match GetLogs address EventTopic offset ((offset + 10) % U64) with
  | .error err => .panicked err
  | .ok logs =>
    match decodeLogs DecodeEvent logs with
    | .panicked err => .panicked err
    | .returned evts =>
      let r := rangeEvts address nonce (sortSlice evts)
      let s1 := storeWriteContractLogsOffset s address ((offset + 10) % U64)
      let nap := if logs.length = 0 then [Action.Sleep (ClockTick * 5)] else []
      .returned
        { trace := Action.GetLogs address EventTopic offset ((offset + 10) % U64) :: r.1
            ++ [Action.WriteContractLogsOffset address ((offset + 10) % U64)] ++ nap
          nonce := r.2
          store := s1 }

/-- The `for` loop of `Engine.loopGetLogs`, unrolled for `fuel` passes. The
`k`-th poll of the process is answered by `GetLogs k`; `acc` holds the actions
issued so far. The source loop has no exit: it ends only by a panic. -/
def loopGetLogsFor (GetLogs : Nat → String → String → Nat → Nat → Except String (List Bytes))
    (DecodeEvent : Bytes → Except String Event) (address : String) :
    Nat → Nat → IterOut → Result IterOut
  | 0, _, st => .returned st
  | fuel + 1, k, st =>
    match loopGetLogsIter (GetLogs k) DecodeEvent address st.store st.nonce with
    | .panicked err => .panicked err
    | .returned out =>
      loopGetLogsFor GetLogs DecodeEvent address fuel (k + 1)
        { trace := st.trace ++ out.trace, nonce := out.nonce, store := out.store }

/-- Source: `Engine.loopGetLogs`, run for `fuel` passes. `lastNonce` is the
answer of `storeReadLastContractEventNonce(address)`. -/
def loopGetLogs (GetLogs : Nat → String → String → Nat → Nat → Except String (List Bytes))
    (DecodeEvent : Bytes → Except String Event) (address : String)
    (lastNonce : Nat) (s : Store) (fuel : Nat) : Result IterOut :=
  loopGetLogsFor GetLogs DecodeEvent address fuel 0
    { trace := [], nonce := (lastNonce + 1) % U64, store := s }

/-- Nonces handed to `storeWriteContractEvent`, in call order. -/
def writtenNonces : List Action → List Nat
  | [] => []
  | Action.WriteContractEvent _ evt :: tr => evt.Nonce :: writtenNonces tr
  | _ :: tr => writtenNonces tr

/-- Values handed to `storeWriteContractLogsOffset`, in call order. -/
def offsetWrites : List Action → List Nat
  | [] => []
  | Action.WriteContractLogsOffset _ offset :: tr => offset :: offsetWrites tr
  | _ :: tr => offsetWrites tr

/-- Window bounds `(lo, hi)` handed to the RPC `GetLogs`, in call order. -/
def fetchBounds : List Action → List (Nat × Nat)
  | [] => []
  | Action.GetLogs _ _ lo hi :: tr => (lo, hi) :: fetchBounds tr
  | _ :: tr => fetchBounds tr

/-- Durations handed to `time.Sleep`, in call order. -/
def sleeps : List Action → List Nat
  | [] => []
  | Action.Sleep d :: tr => d :: sleeps tr
  | _ :: tr => sleeps tr

/-- Nonces written before the first cursor write of a trace. -/
def writtenBeforeOffset : List Action → List Nat
  | [] => []
  | Action.WriteContractLogsOffset _ _ :: _ => []
  | Action.WriteContractEvent _ evt :: tr => evt.Nonce :: writtenBeforeOffset tr
  | _ :: tr => writtenBeforeOffset tr

/-- A store with every cursor at `c` and no notifier. -/
def Store.init (c : Nat) : Store := { logsOffset := fun _ => c, notifier := fun _ => none }

/-- Test decoder: a one-byte log `[n]` is the event with nonce `n % 256`. -/
def demoDecode : Bytes → Except String Event
  | [n] => .ok ⟨n % 256, []⟩
  | _ => .error "malformed event"

/-- Test window: four logs carrying the nonces 7, 5, 5, 6. -/
def demoLogs : List Bytes := [[7], [5], [5], [6]]

/-- Test RPC client: every window holds `demoLogs`. -/
def demoGetLogs : String → String → Nat → Nat → Except String (List Bytes) :=
  fun _ _ _ _ => .ok demoLogs

/-- The decoding of `demoLogs`. -/
def demoEvts : List Event := [⟨7, []⟩, ⟨5, []⟩, ⟨5, []⟩, ⟨6, []⟩]

/-- Test RPC client: every window holds two logs, with nonces 5 and 8. -/
def gapGetLogs : String → String → Nat → Nat → Except String (List Bytes) :=
  fun _ _ _ _ => .ok [[5], [8]]

/-- Test RPC client: every window is empty. -/
def idleGetLogs : String → String → Nat → Nat → Except String (List Bytes) :=
  fun _ _ _ _ => .ok []

/-- Test store: the address `0xc0ffee` has the notifier key `k1` in state
`running`, and its cursor is at 500. -/
def notifiedStore : Store :=
  { logsOffset := fun _ => 500
    notifier := fun a => if a = "0xc0ffee" then some ⟨"k1", "running"⟩ else none }

end Quorum

namespace Rpc

open Quorum (Result)

/-- Source: `Call`, the decoded request object. `Params` is never read. -/
structure Call where
  Id : String
  Method : String
  Params : List String
deriving Repr, DecidableEq

/-- The part of `http.Request` read by the handler: `r.URL.Path`, `r.Method`
and the bytes of `r.Body`. -/
structure Request where
  path : String
  method : String
  body : String
deriving Repr, DecidableEq

/-- Values stored in a response body (`interface{}`): an error or id string, or
the value produced by `getInfo`. -/
inductive Value (Info : Type) where
  | text (s : String)
  | data (info : Info)
deriving Repr, DecidableEq

/-- A `map[string]interface{}`, as a list of bindings with distinct keys. -/
abbrev Body (Info : Type) := List (String × Value Info)

/-- Go map assignment `body[k] = v`. -/
def Body.set {Info : Type} : Body Info → String → Value Info → Body Info
  | [], k, v => [(k, v)]
  | (k1, v1) :: rest, k, v =>
    if k1 = k then (k, v) :: rest else (k1, v1) :: Body.set rest k v

/-- Go map lookup `body[k]`. -/
def Body.get {Info : Type} : Body Info → String → Option (Value Info)
  | [], _ => none
  | (k1, v1) :: rest, k => if k1 = k then some v1 else Body.get rest k

/-- One response written to the `http.ResponseWriter`: the `Content-Type`
header, the status code, and the JSON object whose encoding is the body. -/
structure Response (Info : Type) where
  contentType : String
  status : Nat
  body : Body Info
deriving Repr, DecidableEq

/-- Source: `Render`. The response writer `w` is the list of responses written
through it so far. -/
structure Render (Info : Type) where
  w : List (Response Info)
  id : String

/-- Whether `json.Marshal` succeeds on a body: strings always encode, a
`getInfo` value encodes when `canMarshal` says so. -/
def marshalOK {Info : Type} (canMarshal : Info → Bool) (body : Body Info) : Bool :=
  body.all fun kv =>
    match kv.2 with
    | .text _ => true
    | .data info => canMarshal info

/-- Source: `Render.render`. -/
def Render.render {Info : Type} (canMarshal : Info → Bool) (r : Render Info)
    (body : Body Info) : Result (List (Response Info)) :=
  let body := if r.id ≠ "" then body.set "id" (.text r.id) else body
  if marshalOK canMarshal body then
    .returned (r.w ++ [{ contentType := "application/json", status := 200, body := body }])
  else
    .panicked "json: unsupported type"

/-- Source: `Render.RenderData`. -/
def Render.RenderData {Info : Type} (canMarshal : Info → Bool) (r : Render Info)
    (data : Info) : Result (List (Response Info)) :=
  r.render canMarshal [("data", .data data)]

/-- Source: `Render.RenderError`; `err` is `err.Error()`. -/
def Render.RenderError {Info : Type} (canMarshal : Info → Bool) (r : Render Info)
    (err : String) : Result (List (Response Info)) :=
  r.render canMarshal [("error", .text err)]

/-- Source: `handlePanic`, the deferred recovery of `ServeHTTP`. `rcv` is the
recovered panic, if any; `w` is the response writer, to which nothing has been
written when one of the panics of the handler body is raised. -/
def handlePanic {Info : Type} (canMarshal : Info → Bool) (w : List (Response Info))
    (rcv : Option String) : Result (List (Response Info)) :=
  match rcv with
  | none => .returned w
  | some _ => Render.RenderError canMarshal { w := w, id := "" } "bad request"

/-- Body of `RPC.ServeHTTP` below the `defer`: the outcome, and the number of
calls made on the store (`getInfo(impl.store)` is the only one). `decode` is
the `encoding/json` decoding of the request body into a `Call`; `getInfo` is
the status query of the package. -/
def serveBody {St Info : Type} (decode : String → Except String Call)
    (getInfo : St → Result (Except String Info)) (canMarshal : Info → Bool)
    (store : St) (w : List (Response Info)) (r : Request) :
    Result (List (Response Info)) × Nat :=
  let rdr : Render Info := { w := w, id := "" }
  if r.path ≠ "/" ∨ r.method ≠ "POST" then
    (rdr.RenderError canMarshal ("bad request " ++ r.method ++ " " ++ r.path), 0)
  else
    match decode r.body with
    | .error err => (rdr.RenderError canMarshal ("bad request " ++ err), 0)
    | .ok call =>
      let renderer : Render Info := { w := w, id := call.Id }
      if call.Method = "getinfo" then
        match getInfo store with
        | .panicked msg => (.panicked msg, 1)
        | .returned (.error err) => (renderer.RenderError canMarshal err, 1)
        | .returned (.ok info) => (renderer.RenderData canMarshal info, 1)
      else
        (renderer.RenderError canMarshal ("invalid method " ++ call.Method), 0)

/-- What one run of the handler leaves behind: the responses written and the
number of calls made on the store. -/
structure Served (Info : Type) where
  w : List (Response Info)
  storeCalls : Nat
deriving Repr, DecidableEq

/-- Source: `RPC.ServeHTTP`, on a fresh response writer. -/
def ServeHTTP {St Info : Type} (decode : String → Except String Call)
    (getInfo : St → Result (Except String Info)) (canMarshal : Info → Bool)
    (store : St) (r : Request) : Result (Served Info) :=
  let out := serveBody decode getInfo canMarshal store [] r
  let rcv : Option String :=
    match out.1 with
    | .panicked msg => some msg
    | .returned _ => none
  let w : List (Response Info) :=
    match out.1 with
    | .panicked _ => []
    | .returned w1 => w1
  match handlePanic canMarshal w rcv with
  | .panicked msg => .panicked msg
  | .returned w1 => .returned { w := w1, storeCalls := out.2 }

/-- Test decoder: the body `"getinfo"` is a call without id, `"abc"` is the
`getinfo` call with id `"abc"`, `"ping"` a call of an unknown method; anything
else does not decode. -/
def demoDecode (body : String) : Except String Call :=
  if body = "getinfo" then .ok ⟨"", "getinfo", []⟩
  else if body = "abc" then .ok ⟨"abc", "getinfo", []⟩
  else if body = "ping" then .ok ⟨"7", "ping", []⟩
  else .error "unexpected end of JSON input"

/-- Test status query: answers with the store content. -/
def demoInfo (store : String) : Result (Except String String) :=
  .returned (.ok store)

/-- Test status query that panics. -/
def panicInfo (_store : String) : Result (Except String String) :=
  .panicked "store closed"

end Rpc

/-! ## Trace projections -/

namespace Quorum

theorem writtenNonces_append (t u : List Action) :
    writtenNonces (t ++ u) = writtenNonces t ++ writtenNonces u := by
  induction t with
  | nil => rfl
  | cons a t ih => cases a <;> simp [writtenNonces, ih]

theorem offsetWrites_append (t u : List Action) :
    offsetWrites (t ++ u) = offsetWrites t ++ offsetWrites u := by
  induction t with
  | nil => rfl
  | cons a t ih => cases a <;> simp [offsetWrites, ih]

theorem fetchBounds_append (t u : List Action) :
    fetchBounds (t ++ u) = fetchBounds t ++ fetchBounds u := by
  induction t with
  | nil => rfl
  | cons a t ih => cases a <;> simp [fetchBounds, ih]

theorem sleeps_append (t u : List Action) :
    sleeps (t ++ u) = sleeps t ++ sleeps u := by
  induction t with
  | nil => rfl
  | cons a t ih => cases a <;> simp [sleeps, ih]

/-- The second loop of the body issues store writes of events only. -/
theorem rangeEvts_only_events (address : String) (l : List Event) (n : Nat) :
    offsetWrites (rangeEvts address n l).1 = [] ∧
    fetchBounds (rangeEvts address n l).1 = [] ∧
    sleeps (rangeEvts address n l).1 = [] ∧
    ∀ u, writtenBeforeOffset ((rangeEvts address n l).1 ++ u) =
      writtenNonces (rangeEvts address n l).1 ++ writtenBeforeOffset u := by
  induction l generalizing n with
  | nil => simp [rangeEvts, offsetWrites, fetchBounds, sleeps, writtenNonces]
  | cons e l ih =>
    unfold rangeEvts
    split
    · exact ih n
    · split
      · simp [offsetWrites, fetchBounds, sleeps, writtenNonces]
      · have h := ih ((n + 1) % U64)
        simp [offsetWrites, fetchBounds, sleeps, writtenNonces, writtenBeforeOffset, h.1, h.2.1,
          h.2.2.1, h.2.2.2]

/-! ## The sort -/

theorem mem_insertByNonce (e x : Event) (l : List Event) :
    x ∈ insertByNonce e l ↔ x = e ∨ x ∈ l := by
  induction l with
  | nil => simp [insertByNonce]
  | cons y l ih =>
    unfold insertByNonce
    split
    · simp
    · simp [ih]; tauto

theorem mem_sortSlice (x : Event) (l : List Event) : x ∈ sortSlice l ↔ x ∈ l := by
  induction l with
  | nil => simp [sortSlice]
  | cons e l ih => simp [sortSlice, mem_insertByNonce, ih]

theorem pairwise_insertByNonce (e : Event) (l : List Event)
    (h : l.Pairwise (fun a b => a.Nonce ≤ b.Nonce)) :
    (insertByNonce e l).Pairwise (fun a b => a.Nonce ≤ b.Nonce) := by
  induction l with
  | nil => simp [insertByNonce]
  | cons y l ih =>
    unfold insertByNonce
    rw [List.pairwise_cons] at h
    split
    · rename_i hlt
      refine List.pairwise_cons.2 ⟨?_, List.pairwise_cons.2 h⟩
      intro b hb
      rcases List.mem_cons.1 hb with rfl | hb
      · omega
      · have := h.1 b hb
        omega
    · rename_i hge
      refine List.pairwise_cons.2 ⟨?_, ih h.2⟩
      intro b hb
      rcases (mem_insertByNonce e b l).1 hb with rfl | hb
      · omega
      · exact h.1 b hb

theorem pairwise_sortSlice (l : List Event) :
    (sortSlice l).Pairwise (fun a b => a.Nonce ≤ b.Nonce) := by
  induction l with
  | nil => simp [sortSlice]
  | cons e l ih => exact pairwise_insertByNonce e _ ih

theorem perm_insertByNonce (e : Event) (l : List Event) :
    (insertByNonce e l).Perm (e :: l) := by
  induction l with
  | nil => simp [insertByNonce]
  | cons y l ih =>
    unfold insertByNonce
    split
    · exact List.Perm.refl _
    · exact (List.Perm.cons y ih).trans (List.Perm.swap e y l)

theorem perm_sortSlice (l : List Event) : (sortSlice l).Perm l := by
  induction l with
  | nil => exact List.Perm.refl _
  | cons e l ih => exact (perm_insertByNonce e _).trans (List.Perm.cons e ih)

/-- Two orderings of the same events by nonce carry the same nonce sequence:
what `sort.Slice` leaves open is only the order among equal nonces. -/
theorem nonces_eq_of_sorted_perm (l1 l2 : List Event) (hp : l1.Perm l2)
    (h1 : l1.Pairwise (fun a b => a.Nonce ≤ b.Nonce))
    (h2 : l2.Pairwise (fun a b => a.Nonce ≤ b.Nonce)) :
    l1.map Event.Nonce = l2.map Event.Nonce := by
  have s1 : (l1.map Event.Nonce).Sorted (fun a b : Nat => a ≤ b) := List.pairwise_map.2 h1
  have s2 : (l2.map Event.Nonce).Sorted (fun a b : Nat => a ≤ b) := List.pairwise_map.2 h2
  exact List.eq_of_perm_of_sorted (hp.map Event.Nonce) s1 s2

/-! ## The write loop -/

/-- The nonces written by the loop and the expected nonce at its exit depend
on the nonce sequence of the events only. -/
theorem rangeEvts_congr (address : String) (l1 : List Event) :
    ∀ (l2 : List Event) (n : Nat), l1.map Event.Nonce = l2.map Event.Nonce →
      writtenNonces (rangeEvts address n l1).1 = writtenNonces (rangeEvts address n l2).1 ∧
      (rangeEvts address n l1).2 = (rangeEvts address n l2).2 := by
  induction l1 with
  | nil =>
    intro l2 n h
    cases l2 with
    | nil => exact ⟨rfl, rfl⟩
    | cons y l2 => simp at h
  | cons x l1 ih =>
    intro l2 n h
    cases l2 with
    | nil => simp at h
    | cons y l2 =>
      simp only [List.map_cons, List.cons.injEq] at h
      obtain ⟨hxy, ht⟩ := h
      unfold rangeEvts
      rw [hxy]
      split
      · exact ih l2 n ht
      · split
        · exact ⟨rfl, rfl⟩
        · have := ih l2 ((n + 1) % U64) ht
          simp only [writtenNonces, hxy, this.1, this.2, and_self]

/-- Whatever ordering by nonce the sort produces, the loop writes the nonces
it writes on `sortSlice` and exits with the same expected nonce. -/
theorem rangeEvts_any_sort (address : String) (evts sorted : List Event) (n : Nat)
    (hp : sorted.Perm evts) (hs : sorted.Pairwise (fun a b => a.Nonce ≤ b.Nonce)) :
    writtenNonces (rangeEvts address n sorted).1 =
      writtenNonces (rangeEvts address n (sortSlice evts)).1 ∧
    (rangeEvts address n sorted).2 = (rangeEvts address n (sortSlice evts)).2 :=
  rangeEvts_congr address sorted (sortSlice evts) n
    (nonces_eq_of_sorted_perm sorted (sortSlice evts) (hp.trans (perm_sortSlice evts).symm)
      hs (pairwise_sortSlice evts))


/-- When every remaining event lies above the expected nonce, the loop stops at
once. -/
theorem rangeEvts_all_above (address : String) (n : Nat) (l : List Event)
    (h : ∀ e ∈ l, n < e.Nonce) : rangeEvts address n l = ([], n) := by
  cases l with
  | nil => rfl
  | cons e l =>
    have he := h e (List.mem_cons_self _ _)
    unfold rangeEvts
    rw [if_neg (by omega), if_pos he]

/-- Characterisation of the write loop on a list ordered by nonce: the written
nonces are the run `n, n+1, ..., n+k-1`, the run does not cross the top of the
`uint64` range, the expected nonce at exit is `n + k` in `uint64` arithmetic,
and `n + k` is the nonce of no event of the list. -/
theorem rangeEvts_run (address : String) (l : List Event) :
    ∀ n : Nat, n < U64 → l.Pairwise (fun a b => a.Nonce ≤ b.Nonce) →
      (∀ e ∈ l, e.Nonce < U64) →
      ∃ k, writtenNonces (rangeEvts address n l).1 = List.range' n k ∧ n + k ≤ U64 ∧
        (rangeEvts address n l).2 = (n + k) % U64 ∧ ∀ e ∈ l, e.Nonce ≠ n + k := by
  induction l with
  | nil =>
    intro n hn _ _
    exact ⟨0, by simp [rangeEvts, writtenNonces], by omega, by simp [rangeEvts, Nat.mod_eq_of_lt hn],
      by simp⟩
  | cons e l ih =>
    intro n hn hs hb
    rw [List.pairwise_cons] at hs
    have hbl : ∀ x ∈ l, x.Nonce < U64 := fun x hx => hb x (List.mem_cons_of_mem _ hx)
    have hbe : e.Nonce < U64 := hb e (List.mem_cons_self _ _)
    by_cases h1 : e.Nonce < n
    · obtain ⟨k, hk1, hk2, hk3, hk4⟩ := ih n hn hs.2 hbl
      refine ⟨k, ?_, hk2, ?_, ?_⟩
      · rw [rangeEvts, if_pos h1]; exact hk1
      · rw [rangeEvts, if_pos h1]; exact hk3
      · intro x hx
        rcases List.mem_cons.1 hx with rfl | hx
        · omega
        · exact hk4 x hx
    · by_cases h2 : e.Nonce > n
      · refine ⟨0, ?_, by omega, ?_, ?_⟩
        · rw [rangeEvts, if_neg h1, if_pos h2]; simp [writtenNonces]
        · rw [rangeEvts, if_neg h1, if_pos h2]; simp [Nat.mod_eq_of_lt hn]
        · intro x hx
          rcases List.mem_cons.1 hx with rfl | hx
          · omega
          · have := hs.1 x hx
            omega
      · have hen : e.Nonce = n := by omega
        by_cases hw : n + 1 < U64
        · obtain ⟨k, hk1, hk2, hk3, hk4⟩ := ih (n + 1) hw hs.2 hbl
          refine ⟨k + 1, ?_, by omega, ?_, ?_⟩
          · rw [rangeEvts, if_neg h1, if_neg h2, Nat.mod_eq_of_lt hw]
            simp [writtenNonces, hk1, hen, List.range'_succ]
          · rw [rangeEvts, if_neg h1, if_neg h2, Nat.mod_eq_of_lt hw]
            simp only [hk3]
            congr 1
            omega
          · intro x hx
            rcases List.mem_cons.1 hx with rfl | hx
            · omega
            · have := hk4 x hx
              omega
        · have hU : n + 1 = U64 := by omega
          have hz : (n + 1) % U64 = 0 := by rw [hU]; exact Nat.mod_self _
          have hstop : rangeEvts address 0 l = ([], 0) := by
            apply rangeEvts_all_above
            intro x hx
            have := hs.1 x hx
            have : 0 < U64 - 1 := by simp [U64]
            omega
          refine ⟨1, ?_, by omega, ?_, ?_⟩
          · rw [rangeEvts, if_neg h1, if_neg h2, hz, hstop]
            simp [writtenNonces, hen]
          · rw [rangeEvts, if_neg h1, if_neg h2, hz, hstop]
          · intro x hx
            have := hb x hx
            omega

/-- Every written nonce is the nonce of an event of the list. -/
theorem rangeEvts_written_mem (address : String) (l : List Event) :
    ∀ n m, m ∈ writtenNonces (rangeEvts address n l).1 → ∃ e ∈ l, e.Nonce = m := by
  induction l with
  | nil => intro n m h; simp [rangeEvts, writtenNonces] at h
  | cons e l ih =>
    intro n m h
    unfold rangeEvts at h
    split at h
    · obtain ⟨x, hx, hxm⟩ := ih n m h
      exact ⟨x, List.mem_cons_of_mem _ hx, hxm⟩
    · split at h
      · simp [writtenNonces] at h
      · simp only [writtenNonces, List.mem_cons] at h
        rcases h with rfl | h
        · exact ⟨e, List.mem_cons_self _ _, rfl⟩
        · obtain ⟨x, hx, hxm⟩ := ih _ m h
          exact ⟨x, List.mem_cons_of_mem _ hx, hxm⟩

/-! ## One pass of the loop body -/

/-- Every decoded event is the decoding of some log. -/
theorem decodeLogs_mem (DecodeEvent : Bytes → Except String Event) (logs : List Bytes) :
    ∀ evts, decodeLogs DecodeEvent logs = .returned evts →
      ∀ e ∈ evts, ∃ b ∈ logs, DecodeEvent b = .ok e := by
  induction logs with
  | nil =>
    intro evts h e he
    simp only [decodeLogs, Result.returned.injEq] at h
    subst h
    simp at he
  | cons b logs ih =>
    intro evts h e he
    unfold decodeLogs at h
    split at h
    · simp at h
    · rename_i evt hb
      split at h
      · simp at h
      · rename_i rest hrest
        simp only [Result.returned.injEq] at h
        subst h
        rcases List.mem_cons.1 he with rfl | he
        · exact ⟨b, List.mem_cons_self _ _, hb⟩
        · obtain ⟨b1, hb1, hd⟩ := ih rest hrest e he
          exact ⟨b1, List.mem_cons_of_mem _ hb1, hd⟩

/-- The pass through the loop body when the fetch and every decoding succeed. -/
theorem loopGetLogsIter_returned
    (GetLogs : String → String → Nat → Nat → Except String (List Bytes))
    (DecodeEvent : Bytes → Except String Event) (address : String) (s : Store) (n : Nat)
    (logs : List Bytes) (evts : List Event)
    (hG : GetLogs address EventTopic (storeReadContractLogsOffset s address)
      ((storeReadContractLogsOffset s address + 10) % U64) = .ok logs)
    (hD : decodeLogs DecodeEvent logs = .returned evts) :
    loopGetLogsIter GetLogs DecodeEvent address s n = .returned
      { trace := Action.GetLogs address EventTopic (storeReadContractLogsOffset s address)
            ((storeReadContractLogsOffset s address + 10) % U64)
            :: (rangeEvts address n (sortSlice evts)).1
          ++ [Action.WriteContractLogsOffset address
            ((storeReadContractLogsOffset s address + 10) % U64)]
          ++ (if logs.length = 0 then [Action.Sleep (ClockTick * 5)] else [])
        nonce := (rangeEvts address n (sortSlice evts)).2
        store := storeWriteContractLogsOffset s address
          ((storeReadContractLogsOffset s address + 10) % U64) } := by
  unfold loopGetLogsIter
  simp only [hG, hD]

/-- Projections of the trace of one pass. -/
theorem iter_trace_projections (address topic : String) (c hi : Nat) (w nap : List Action)
    (hw : offsetWrites w = [] ∧ fetchBounds w = [] ∧ sleeps w = [] ∧
      ∀ u, writtenBeforeOffset (w ++ u) = writtenNonces w ++ writtenBeforeOffset u)
    (hnap : nap = [] ∨ ∃ d, nap = [Action.Sleep d]) :
    writtenNonces (Action.GetLogs address topic c hi :: w
        ++ [Action.WriteContractLogsOffset address hi] ++ nap) = writtenNonces w ∧
    offsetWrites (Action.GetLogs address topic c hi :: w
        ++ [Action.WriteContractLogsOffset address hi] ++ nap) = [hi] ∧
    fetchBounds (Action.GetLogs address topic c hi :: w
        ++ [Action.WriteContractLogsOffset address hi] ++ nap) = [(c, hi)] ∧
    sleeps (Action.GetLogs address topic c hi :: w
        ++ [Action.WriteContractLogsOffset address hi] ++ nap) = sleeps nap ∧
    writtenBeforeOffset (Action.GetLogs address topic c hi :: w
        ++ [Action.WriteContractLogsOffset address hi] ++ nap) = writtenNonces w := by
  obtain ⟨h1, h2, h3, h4⟩ := hw
  have e : Action.GetLogs address topic c hi :: w
        ++ [Action.WriteContractLogsOffset address hi] ++ nap
      = [Action.GetLogs address topic c hi] ++ (w
        ++ ([Action.WriteContractLogsOffset address hi] ++ nap)) := by simp
  rw [e]
  rcases hnap with rfl | ⟨d, rfl⟩ <;>
    simp [writtenNonces_append, offsetWrites_append, fetchBounds_append, sleeps_append,
      writtenNonces, offsetWrites, fetchBounds, sleeps, writtenBeforeOffset, h1, h2, h3, h4]

/-- Summary of one pass whose fetch and decodings succeed: what it hands to
each collaborator, the expected nonce and the store it leaves. -/
theorem loopGetLogsIter_summary
    (GetLogs : String → String → Nat → Nat → Except String (List Bytes))
    (DecodeEvent : Bytes → Except String Event) (address : String) (s : Store) (n : Nat)
    (logs : List Bytes) (evts : List Event)
    (hG : GetLogs address EventTopic (storeReadContractLogsOffset s address)
      ((storeReadContractLogsOffset s address + 10) % U64) = .ok logs)
    (hD : decodeLogs DecodeEvent logs = .returned evts) :
    ∃ out, loopGetLogsIter GetLogs DecodeEvent address s n = .returned out ∧
      writtenNonces out.trace = writtenNonces (rangeEvts address n (sortSlice evts)).1 ∧
      writtenBeforeOffset out.trace = writtenNonces (rangeEvts address n (sortSlice evts)).1 ∧
      offsetWrites out.trace = [(storeReadContractLogsOffset s address + 10) % U64] ∧
      fetchBounds out.trace = [(storeReadContractLogsOffset s address,
        (storeReadContractLogsOffset s address + 10) % U64)] ∧
      sleeps out.trace = (if logs.length = 0 then [ClockTick * 5] else []) ∧
      out.nonce = (rangeEvts address n (sortSlice evts)).2 ∧
      out.store = storeWriteContractLogsOffset s address
        ((storeReadContractLogsOffset s address + 10) % U64) := by
  refine ⟨_, loopGetLogsIter_returned GetLogs DecodeEvent address s n logs evts hG hD, ?_⟩
  have hp := iter_trace_projections address EventTopic (storeReadContractLogsOffset s address)
    ((storeReadContractLogsOffset s address + 10) % U64)
    (rangeEvts address n (sortSlice evts)).1
    (if logs.length = 0 then [Action.Sleep (ClockTick * 5)] else [])
    (rangeEvts_only_events address (sortSlice evts) n)
    (by by_cases h : logs.length = 0 <;> simp [h])
  refine ⟨hp.1, hp.2.2.2.2, hp.2.1, hp.2.2.1, ?_, rfl, rfl⟩
  rw [hp.2.2.2.1]
  by_cases h : logs.length = 0 <;> simp [h, sleeps]

/-- The run written by one pass, on the events as fetched (any order,
duplicates allowed). -/
theorem sorted_run (address : String) (evts : List Event) (n : Nat) (hn : n < U64)
    (hb : ∀ e ∈ evts, e.Nonce < U64) :
    ∃ k, writtenNonces (rangeEvts address n (sortSlice evts)).1 = List.range' n k ∧
      n + k ≤ U64 ∧ (rangeEvts address n (sortSlice evts)).2 = (n + k) % U64 ∧
      ∀ e ∈ evts, e.Nonce ≠ n + k := by
  obtain ⟨k, h1, h2, h3, h4⟩ := rangeEvts_run address (sortSlice evts) n hn
    (pairwise_sortSlice evts) (fun e he => hb e ((mem_sortSlice e evts).1 he))
  exact ⟨k, h1, h2, h3, fun e he => h4 e ((mem_sortSlice e evts).2 he)⟩

/-- Consecutive `uint64` values starting at `n0`, `K` of them. -/
theorem range_map_mod_append (n0 K j : Nat) (hj : (n0 + K) % U64 + j ≤ U64) :
    (List.range K).map (fun i => (n0 + i) % U64) ++ List.range' ((n0 + K) % U64) j =
      (List.range (K + j)).map (fun i => (n0 + i) % U64) := by
  rw [List.range_add, List.map_append, List.map_map]
  congr 1
  rw [List.range'_eq_map_range]
  apply List.map_congr_left
  intro i hi
  have hi2 : i < j := List.mem_range.1 hi
  simp only [Function.comp]
  have hm : ((n0 + K) % U64 + i) % U64 = (n0 + K + i) % U64 := Nat.mod_add_mod _ _ _
  have hs : ((n0 + K) % U64 + i) % U64 = (n0 + K) % U64 + i := Nat.mod_eq_of_lt (by omega)
  show (n0 + K) % U64 + i = (n0 + (K + i)) % U64
  rw [← Nat.add_assoc, ← hm, hs]

/-- Any number of passes, each with a successful fetch and decoding, extends
the written nonces by consecutive `uint64` values. -/
theorem loopGetLogsFor_consecutive
    (GetLogs : Nat → String → String → Nat → Nat → Except String (List Bytes))
    (DecodeEvent : Bytes → Except String Event) (address : String)
    (hdec : ∀ b e, DecodeEvent b = .ok e → e.Nonce < U64)
    (hok : ∀ k lo hi, ∃ logs evts, GetLogs k address EventTopic lo hi = .ok logs ∧
      decodeLogs DecodeEvent logs = .returned evts) (n0 : Nat) :
    ∀ fuel k st K, st.nonce = (n0 + K) % U64 →
      writtenNonces st.trace = (List.range K).map (fun i => (n0 + i) % U64) →
      ∃ out K1, loopGetLogsFor GetLogs DecodeEvent address fuel k st = .returned out ∧
        writtenNonces out.trace = (List.range K1).map (fun i => (n0 + i) % U64) ∧
        out.nonce = (n0 + K1) % U64 := by
  intro fuel
  induction fuel with
  | zero =>
    intro k st K h1 h2
    exact ⟨st, K, rfl, h2, h1⟩
  | succ fuel ih =>
    intro k st K h1 h2
    obtain ⟨logs, evts, hG, hD⟩ := hok k (storeReadContractLogsOffset st.store address)
      ((storeReadContractLogsOffset st.store address + 10) % U64)
    obtain ⟨out, ho, hw, -, -, -, -, hn, -⟩ :=
      loopGetLogsIter_summary (GetLogs k) DecodeEvent address st.store st.nonce logs evts hG hD
    have hU : 0 < U64 := by simp [U64]
    have hlt : st.nonce < U64 := by rw [h1]; exact Nat.mod_lt _ hU
    have hb : ∀ e ∈ evts, e.Nonce < U64 := by
      intro e he
      obtain ⟨b, -, hbd⟩ := decodeLogs_mem DecodeEvent logs evts hD e he
      exact hdec b e hbd
    obtain ⟨j, hj1, hj2, hj3, -⟩ := sorted_run address evts st.nonce hlt hb
    have step := ih (k + 1)
      { trace := st.trace ++ out.trace, nonce := out.nonce, store := out.store } (K + j)
      (by
        show out.nonce = _
        rw [hn, hj3, h1, Nat.mod_add_mod, Nat.add_assoc])
      (by
        show writtenNonces (st.trace ++ out.trace) = _
        rw [writtenNonces_append, h2, hw, hj1, h1]
        exact range_map_mod_append n0 K j (by rw [← h1]; exact hj2))
    obtain ⟨res, K1, hr, hr1, hr2⟩ := step
    refine ⟨res, K1, ?_, hr1, hr2⟩
    rw [loopGetLogsFor, ho]
    exact hr

/-- The test decoder yields `uint64` nonces. -/
theorem demoDecode_bound : ∀ b e, demoDecode b = .ok e → e.Nonce < U64 := by
  intro b e h
  unfold demoDecode at h
  split at h
  · rename_i n
    simp only [Except.ok.injEq] at h
    subst h
    have : n % 256 < 256 := Nat.mod_lt _ (by decide)
    have : 256 < U64 := by simp [U64]
    show n % 256 < U64
    omega
  · simp at h

/-! ## Properties of the inbound log loop -/

/-- C1. One pass of `loopGetLogs` started with expected nonce `n` writes, whatever
the order and the duplicates of the fetched events, exactly the nonces
`n, n+1, ..., n+k-1` for some `k` (strictly increasing, without wrapping in the
`uint64` range) and leaves the expected-nonce counter at `n + k` (a `uint64`
sum); over any number of passes the written nonces are consecutive `uint64`
values from the starting nonce, and the plain run `n0, n0+1, ...` as long as
the counter has not passed the top of the `uint64` range. -/
theorem loopGetLogs_writes_consecutive_nonces
    (DecodeEvent : Bytes → Except String Event) (address : String)
    (hdec : ∀ b e, DecodeEvent b = .ok e → e.Nonce < U64) :
    (∀ (GetLogs : String → String → Nat → Nat → Except String (List Bytes)) (s : Store)
        (n : Nat) (logs : List Bytes) (evts : List Event),
        n < U64 →
        GetLogs address EventTopic (storeReadContractLogsOffset s address)
          ((storeReadContractLogsOffset s address + 10) % U64) = .ok logs →
        decodeLogs DecodeEvent logs = .returned evts →
        ∃ out k, loopGetLogsIter GetLogs DecodeEvent address s n = .returned out ∧
          writtenNonces out.trace = List.range' n k ∧
          (writtenNonces out.trace).Pairwise (· < ·) ∧
          n + k ≤ U64 ∧ out.nonce = (n + k) % U64 ∧ (n + k < U64 → out.nonce = n + k)) ∧
    (∀ (GetLogs : Nat → String → String → Nat → Nat → Except String (List Bytes))
        (lastNonce : Nat) (s : Store) (fuel : Nat),
        (∀ k lo hi, ∃ logs evts, GetLogs k address EventTopic lo hi = .ok logs ∧
          decodeLogs DecodeEvent logs = .returned evts) →
        ∃ out K, loopGetLogs GetLogs DecodeEvent address lastNonce s fuel = .returned out ∧
          writtenNonces out.trace =
            (List.range K).map (fun i => ((lastNonce + 1) % U64 + i) % U64) ∧
          out.nonce = ((lastNonce + 1) % U64 + K) % U64 ∧
          ((lastNonce + 1) % U64 + K ≤ U64 →
            writtenNonces out.trace = List.range' ((lastNonce + 1) % U64) K)) := by
  constructor
  · intro GetLogs s n logs evts hn hG hD
    obtain ⟨out, ho, hw, -, -, -, -, hnonce, -⟩ :=
      loopGetLogsIter_summary GetLogs DecodeEvent address s n logs evts hG hD
    have hb : ∀ e ∈ evts, e.Nonce < U64 := by
      intro e he
      obtain ⟨b, -, hbd⟩ := decodeLogs_mem DecodeEvent logs evts hD e he
      exact hdec b e hbd
    obtain ⟨k, hk1, hk2, hk3, -⟩ := sorted_run address evts n hn hb
    refine ⟨out, k, ho, hw.trans hk1, ?_, hk2, hnonce.trans hk3, ?_⟩
    · rw [hw, hk1]
      exact List.pairwise_lt_range' n k
    · intro hlt
      rw [hnonce, hk3]
      exact Nat.mod_eq_of_lt hlt
  · intro GetLogs lastNonce s fuel hok
    obtain ⟨out, K, ho, hw, hn⟩ :=
      loopGetLogsFor_consecutive GetLogs DecodeEvent address hdec hok ((lastNonce + 1) % U64)
        fuel 0 { trace := [], nonce := (lastNonce + 1) % U64, store := s } 0
        (by simp) (by simp [writtenNonces])
    refine ⟨out, K, ho, hw, hn, ?_⟩
    intro hK
    rw [hw, List.range'_eq_map_range]
    apply List.map_congr_left
    intro i hi
    have hi2 : i < K := List.mem_range.1 hi
    exact Nat.mod_eq_of_lt (by omega)

/-- Witness of C1 on the test window `[7, 5, 5, 6]` fetched at expected nonce 5. -/
theorem loopGetLogs_writes_consecutive_nonces_witness :
    (∀ b e, demoDecode b = .ok e → e.Nonce < U64) ∧
    ∃ out k, loopGetLogsIter demoGetLogs demoDecode "0xc0ffee" (Store.init 100) 5
        = .returned out ∧
      writtenNonces out.trace = List.range' 5 k ∧
      (writtenNonces out.trace).Pairwise (· < ·) ∧
      5 + k ≤ U64 ∧ out.nonce = (5 + k) % U64 ∧ (5 + k < U64 → out.nonce = 5 + k) :=
  ⟨demoDecode_bound,
    (loopGetLogs_writes_consecutive_nonces demoDecode "0xc0ffee" demoDecode_bound).1
      demoGetLogs (Store.init 100) 5 demoLogs demoEvts (by simp [U64]) rfl rfl⟩

/-- C2 as stated fails: at expected nonce 5 the window `[7, 5, 5, 6]` does not
end with written nonces `[5, 6]` and counter 7. -/
theorem loopGetLogs_scenario_not_dropped :
    ¬ ∃ out, loopGetLogsIter demoGetLogs demoDecode "0xc0ffee" (Store.init 100) 5
        = .returned out ∧
      writtenNonces out.trace = [5, 6] ∧ out.nonce = 7 := by
  rintro ⟨out, ho, hw, -⟩
  obtain ⟨out1, ho1, hw1, -⟩ :=
    loopGetLogsIter_summary demoGetLogs demoDecode "0xc0ffee" (Store.init 100) 5
      demoLogs demoEvts rfl rfl
  rw [ho1] at ho
  simp only [Result.returned.injEq] at ho
  subst ho
  rw [hw1] at hw
  revert hw
  decide

/-- C2, amended. At expected nonce 5, a window decoding to events with nonces
`[7, 5, 5, 6]` makes one pass write nonce 5 once, then 6, then 7 (after the
sort 7 directly follows 6), and leaves the expected-nonce counter at 8. -/
theorem loopGetLogs_scenario
    (GetLogs : String → String → Nat → Nat → Except String (List Bytes))
    (DecodeEvent : Bytes → Except String Event) (address : String) (s : Store)
    (logs : List Bytes) (evts : List Event)
    (hG : GetLogs address EventTopic (storeReadContractLogsOffset s address)
      ((storeReadContractLogsOffset s address + 10) % U64) = .ok logs)
    (hD : decodeLogs DecodeEvent logs = .returned evts)
    (hN : evts.map Event.Nonce = [7, 5, 5, 6]) :
    ∃ out, loopGetLogsIter GetLogs DecodeEvent address s 5 = .returned out ∧
      writtenNonces out.trace = [5, 6, 7] ∧ out.nonce = 8 := by
  obtain ⟨out, ho, hw, -, -, -, -, hn, -⟩ :=
    loopGetLogsIter_summary GetLogs DecodeEvent address s 5 logs evts hG hD
  refine ⟨out, ho, ?_, ?_⟩
  · rw [hw]
    rcases evts with _ | ⟨a, _ | ⟨b, _ | ⟨c, _ | ⟨d, _ | ⟨e, t⟩⟩⟩⟩⟩ <;> simp at hN
    obtain ⟨h7, h5, h5b, h6⟩ := hN
    simp [sortSlice, insertByNonce, rangeEvts, writtenNonces, h7, h5, h5b, h6, U64]
  · rw [hn]
    rcases evts with _ | ⟨a, _ | ⟨b, _ | ⟨c, _ | ⟨d, _ | ⟨e, t⟩⟩⟩⟩⟩ <;> simp at hN
    obtain ⟨h7, h5, h5b, h6⟩ := hN
    simp [sortSlice, insertByNonce, rangeEvts, h7, h5, h5b, h6, U64]

/-- Witness of the amended C2 on the test window. -/
theorem loopGetLogs_scenario_witness :
    demoEvts.map Event.Nonce = [7, 5, 5, 6] ∧
    ∃ out, loopGetLogsIter demoGetLogs demoDecode "0xc0ffee" (Store.init 100) 5
        = .returned out ∧
      writtenNonces out.trace = [5, 6, 7] ∧ out.nonce = 8 :=
  ⟨rfl, loopGetLogs_scenario demoGetLogs demoDecode "0xc0ffee" (Store.init 100)
    demoLogs demoEvts rfl rfl rfl⟩

/-- C5 as stated fails: at expected nonce 5 and cursor 100, a window decoding
to the nonces 5 and 8 has its cursor write issued and the cursor advanced to
110 although nonce 8, which is not below the expected nonce and occurs among
the decoded events, has not been written. -/
theorem loopGetLogs_skips_after_gap :
    ∃ out evts, loopGetLogsIter gapGetLogs demoDecode "0xc0ffee" (Store.init 100) 5
        = .returned out ∧
      decodeLogs demoDecode [[5], [8]] = .returned evts ∧
      offsetWrites out.trace = [110] ∧
      storeReadContractLogsOffset out.store "0xc0ffee" = 110 ∧
      5 ≤ 8 ∧ 8 ∈ evts.map Event.Nonce ∧ 8 ∉ writtenBeforeOffset out.trace := by
  refine ⟨_, _, rfl, rfl, by decide, by decide, by decide, by decide, by decide⟩

/-- C5, amended. One pass of `loopGetLogs` that starts with expected nonce `n`
writes, before it issues the cursor write, exactly the nonces `m >= n` such
that every nonce from `n` to `m` occurs among the events decoded from the
window; a nonce behind a gap is not written, and the cursor write is issued
all the same. -/
theorem loopGetLogs_writes_contiguous_run
    (GetLogs : String → String → Nat → Nat → Except String (List Bytes))
    (DecodeEvent : Bytes → Except String Event) (address : String) (s : Store) (n : Nat)
    (logs : List Bytes) (evts : List Event)
    (hdec : ∀ b e, DecodeEvent b = .ok e → e.Nonce < U64) (hn : n < U64)
    (hG : GetLogs address EventTopic (storeReadContractLogsOffset s address)
      ((storeReadContractLogsOffset s address + 10) % U64) = .ok logs)
    (hD : decodeLogs DecodeEvent logs = .returned evts) :
    ∃ out, loopGetLogsIter GetLogs DecodeEvent address s n = .returned out ∧
      offsetWrites out.trace = [(storeReadContractLogsOffset s address + 10) % U64] ∧
      ∀ m, m ∈ writtenBeforeOffset out.trace ↔
        (n ≤ m ∧ ∀ j, n ≤ j → j ≤ m → j ∈ evts.map Event.Nonce) := by
  obtain ⟨out, ho, -, hw, hoff, -⟩ :=
    loopGetLogsIter_summary GetLogs DecodeEvent address s n logs evts hG hD
  have hb : ∀ e ∈ evts, e.Nonce < U64 := by
    intro e he
    obtain ⟨b, -, hbd⟩ := decodeLogs_mem DecodeEvent logs evts hD e he
    exact hdec b e hbd
  obtain ⟨k, hk1, -, -, hk4⟩ := sorted_run address evts n hn hb
  refine ⟨out, ho, hoff, ?_⟩
  intro m
  rw [hw, hk1, List.mem_range'_1]
  constructor
  · rintro ⟨h1, h2⟩
    refine ⟨h1, ?_⟩
    intro j hj1 hj2
    have hj : j ∈ writtenNonces (rangeEvts address n (sortSlice evts)).1 := by
      rw [hk1, List.mem_range'_1]
      omega
    obtain ⟨e, he, hej⟩ := rangeEvts_written_mem address (sortSlice evts) n j hj
    exact List.mem_map.2 ⟨e, (mem_sortSlice e evts).1 he, hej⟩
  · rintro ⟨h1, h2⟩
    refine ⟨h1, ?_⟩
    by_contra hlt
    obtain ⟨e, he, hek⟩ := List.mem_map.1 (h2 (n + k) (by omega) (by omega))
    exact hk4 e he hek

/-- Witness of the amended C5 on the test window with a gap. -/
theorem loopGetLogs_writes_contiguous_run_witness :
    (∀ b e, demoDecode b = .ok e → e.Nonce < U64) ∧ 5 < U64 ∧
    ∃ out, loopGetLogsIter gapGetLogs demoDecode "0xc0ffee" (Store.init 100) 5
        = .returned out ∧
      offsetWrites out.trace = [(storeReadContractLogsOffset (Store.init 100) "0xc0ffee" + 10)
        % U64] ∧
      ∀ m, m ∈ writtenBeforeOffset out.trace ↔
        (5 ≤ m ∧ ∀ j, 5 ≤ j → j ≤ m →
          j ∈ List.map Event.Nonce [(⟨5, []⟩ : Event), ⟨8, []⟩]) :=
  ⟨demoDecode_bound, by simp [U64],
    loopGetLogs_writes_contiguous_run gapGetLogs demoDecode "0xc0ffee" (Store.init 100) 5
      [[5], [8]] [⟨5, []⟩, ⟨8, []⟩] demoDecode_bound (by simp [U64]) rfl rfl⟩

/-- C9. One pass of `loopGetLogs` calls `time.Sleep` if and only if the fetch
returned zero logs, and then once, as its last action before the next poll,
for `ClockTick * 5` = 15 seconds, which is longer than the base interval
`ClockTick`; after a fetch that returned logs the pass does not sleep. -/
theorem loopGetLogs_backoff_iff_empty_fetch
    (GetLogs : String → String → Nat → Nat → Except String (List Bytes))
    (DecodeEvent : Bytes → Except String Event) (address : String) (s : Store) (n : Nat)
    (logs : List Bytes) (evts : List Event)
    (hG : GetLogs address EventTopic (storeReadContractLogsOffset s address)
      ((storeReadContractLogsOffset s address + 10) % U64) = .ok logs)
    (hD : decodeLogs DecodeEvent logs = .returned evts) :
    ∃ out, loopGetLogsIter GetLogs DecodeEvent address s n = .returned out ∧
      (sleeps out.trace ≠ [] ↔ logs = []) ∧
      (logs = [] → sleeps out.trace = [ClockTick * 5] ∧
        out.trace.getLast? = some (Action.Sleep (ClockTick * 5))) ∧
      (logs ≠ [] → sleeps out.trace = []) ∧
      ClockTick * 5 = 15 * Second ∧ ClockTick < ClockTick * 5 := by
  obtain ⟨out, ho, -, -, -, -, hs, -⟩ :=
    loopGetLogsIter_summary GetLogs DecodeEvent address s n logs evts hG hD
  have ho2 := loopGetLogsIter_returned GetLogs DecodeEvent address s n logs evts hG hD
  rw [ho] at ho2
  simp only [Result.returned.injEq] at ho2
  refine ⟨out, ho, ?_, ?_, ?_, by simp [ClockTick, Second], by simp [ClockTick, Second]⟩
  · rw [hs]
    cases logs <;> simp
  · intro hl
    subst hl
    refine ⟨by rw [hs]; simp, ?_⟩
    rw [ho2]
    simp only [List.length_nil, if_true]
    exact List.getLast?_concat _
  · intro hl
    rw [hs]
    cases logs with
    | nil => exact absurd rfl hl
    | cons b t => simp

/-- Witness of C9 on an empty window. -/
theorem loopGetLogs_backoff_iff_empty_fetch_witness :
    ∃ out, loopGetLogsIter idleGetLogs demoDecode "0xc0ffee" (Store.init 100) 5
        = .returned out ∧
      (sleeps out.trace ≠ [] ↔ ([] : List Bytes) = []) ∧
      (([] : List Bytes) = [] → sleeps out.trace = [ClockTick * 5] ∧
        out.trace.getLast? = some (Action.Sleep (ClockTick * 5))) ∧
      (([] : List Bytes) ≠ [] → sleeps out.trace = []) ∧
      ClockTick * 5 = 15 * Second ∧ ClockTick < ClockTick * 5 :=
  loopGetLogs_backoff_iff_empty_fetch idleGetLogs demoDecode "0xc0ffee" (Store.init 100) 5
    [] [] rfl rfl

/-- C10. One pass of `loopGetLogs` that reads cursor value `c` hands exactly one
value to the cursor write, `c + 10` in `uint64` arithmetic, whatever the
fetched logs hold and however many events are written, and the same value is
the upper bound of the one window it fetches, `[c, c + 10]`; when `c + 10`
is a `uint64`, the written value is `c + 10` and it becomes the stored
cursor. -/
theorem loopGetLogs_advances_cursor_by_window
    (GetLogs : String → String → Nat → Nat → Except String (List Bytes))
    (DecodeEvent : Bytes → Except String Event) (address : String) (s : Store) (n : Nat)
    (logs : List Bytes) (evts : List Event)
    (hG : GetLogs address EventTopic (storeReadContractLogsOffset s address)
      ((storeReadContractLogsOffset s address + 10) % U64) = .ok logs)
    (hD : decodeLogs DecodeEvent logs = .returned evts) :
    ∃ out, loopGetLogsIter GetLogs DecodeEvent address s n = .returned out ∧
      offsetWrites out.trace = [(storeReadContractLogsOffset s address + 10) % U64] ∧
      fetchBounds out.trace = [(storeReadContractLogsOffset s address,
        (storeReadContractLogsOffset s address + 10) % U64)] ∧
      (storeReadContractLogsOffset s address + 10 < U64 →
        offsetWrites out.trace = [storeReadContractLogsOffset s address + 10] ∧
        storeReadContractLogsOffset out.store address =
          storeReadContractLogsOffset s address + 10) := by
  obtain ⟨out, ho, -, -, hoff, hf, -, -, hst⟩ :=
    loopGetLogsIter_summary GetLogs DecodeEvent address s n logs evts hG hD
  refine ⟨out, ho, hoff, hf, ?_⟩
  intro hlt
  rw [hoff, hst, Nat.mod_eq_of_lt hlt]
  refine ⟨rfl, ?_⟩
  unfold storeWriteContractLogsOffset storeReadContractLogsOffset
  rw [if_neg (by omega)]
  simp

/-- Witness of C10 on the test window read at cursor 100. -/
theorem loopGetLogs_advances_cursor_by_window_witness :
    ∃ out, loopGetLogsIter demoGetLogs demoDecode "0xc0ffee" (Store.init 100) 5
        = .returned out ∧
      offsetWrites out.trace =
        [(storeReadContractLogsOffset (Store.init 100) "0xc0ffee" + 10) % U64] ∧
      fetchBounds out.trace = [(storeReadContractLogsOffset (Store.init 100) "0xc0ffee",
        (storeReadContractLogsOffset (Store.init 100) "0xc0ffee" + 10) % U64)] ∧
      (storeReadContractLogsOffset (Store.init 100) "0xc0ffee" + 10 < U64 →
        offsetWrites out.trace = [storeReadContractLogsOffset (Store.init 100) "0xc0ffee" + 10] ∧
        storeReadContractLogsOffset out.store "0xc0ffee" =
          storeReadContractLogsOffset (Store.init 100) "0xc0ffee" + 10) :=
  loopGetLogs_advances_cursor_by_window demoGetLogs demoDecode "0xc0ffee" (Store.init 100) 5
    demoLogs demoEvts rfl rfl

/-! ## The offset cursor -/

/-- The store write of the cursor never lowers it. -/
theorem storeWriteContractLogsOffset_ge (s : Store) (address : String) (v : Nat) (a : String) :
    s.logsOffset a ≤ (storeWriteContractLogsOffset s address v).logsOffset a := by
  unfold storeWriteContractLogsOffset
  split
  · exact Nat.le_refl _
  · show s.logsOffset a ≤ if a = address then v else s.logsOffset a
    split
    · rename_i h1 h2
      subst h2
      omega
    · exact Nat.le_refl _

/-- C4. The contract-logs offset cursor never moves backward: the store write
leaves a cursor at least as large as before and is a no-op for a value below
the stored one; hence neither the advance at the end of a pass of
`loopGetLogs` nor the write of the birth height by a returning
`VerifyAddress` lowers the cursor of any address. -/
theorem cursor_never_moves_backward (s : Store) (address : String) (c : Nat)
    (hc : storeReadContractLogsOffset s address = c) :
    (∀ v, c ≤ storeReadContractLogsOffset (storeWriteContractLogsOffset s address v) address ∧
      (v < c → storeWriteContractLogsOffset s address v = s)) ∧
    (∀ (GetLogs : String → String → Nat → Nat → Except String (List Bytes))
        (DecodeEvent : Bytes → Except String Event) (n : Nat) (out : IterOut),
        loopGetLogsIter GetLogs DecodeEvent address s n = .returned out →
        c ≤ storeReadContractLogsOffset out.store address) ∧
    (∀ (ethVerifyAddress : String → Option String) (GetBlockHeight : Except String Nat)
        (GetContractBirthBlock : String → Bytes → Except String Nat) (hash : Bytes)
        (err : Option String) (s1 : Store),
        VerifyAddress ethVerifyAddress GetBlockHeight GetContractBirthBlock s address hash
          = .returned (err, s1) →
        c ≤ storeReadContractLogsOffset s1 address) := by
  subst hc
  refine ⟨?_, ?_, ?_⟩
  · intro v
    refine ⟨storeWriteContractLogsOffset_ge s address v address, ?_⟩
    intro hv
    unfold storeWriteContractLogsOffset
    exact if_pos hv
  · intro GetLogs DecodeEvent n out h
    cases hG : GetLogs address EventTopic (storeReadContractLogsOffset s address)
        ((storeReadContractLogsOffset s address + 10) % U64) with
    | error err => simp [loopGetLogsIter, hG] at h
    | ok logs =>
      cases hD : decodeLogs DecodeEvent logs with
      | panicked err => simp [loopGetLogsIter, hG, hD] at h
      | returned evts =>
        rw [loopGetLogsIter_returned GetLogs DecodeEvent address s n logs evts hG hD] at h
        simp only [Result.returned.injEq] at h
        subst h
        exact storeWriteContractLogsOffset_ge s address _ address
  · intro ethV H B hash err s1 h
    unfold VerifyAddress at h
    split at h
    · simp only [Result.returned.injEq, Prod.mk.injEq] at h
      rw [← h.2]
    · split at h
      · simp at h
      · split at h
        · split at h
          · simp only [Result.returned.injEq, Prod.mk.injEq] at h
            rw [← h.2]
          · simp at h
        · split at h
          · simp only [Result.returned.injEq, Prod.mk.injEq] at h
            rw [← h.2]
          · simp only [Result.returned.injEq, Prod.mk.injEq] at h
            rw [← h.2]
            exact storeWriteContractLogsOffset_ge s address _ address

/-- Witness of C4 on the test store, whose cursor is at 500. -/
theorem cursor_never_moves_backward_witness :
    storeReadContractLogsOffset notifiedStore "0xc0ffee" = 500 ∧
    500 ≤ storeReadContractLogsOffset
      (storeWriteContractLogsOffset notifiedStore "0xc0ffee" 20) "0xc0ffee" ∧
    storeWriteContractLogsOffset notifiedStore "0xc0ffee" 20 = notifiedStore :=
  ⟨rfl, ((cursor_never_moves_backward notifiedStore "0xc0ffee" 500 rfl).1 20).1,
    ((cursor_never_moves_backward notifiedStore "0xc0ffee" 500 rfl).1 20).2 (by decide)⟩

/-! ## Address verification -/

/-- Below the top 128 values of the `uint64` range for the birth height,
`VerifyAddress` on a well-formed address with both RPC answers accepts exactly
when the address has 128 confirmations, and then records the birth height. -/
theorem VerifyAddress_accepts_iff_aged (ethVerifyAddress : String → Option String)
    (GetContractBirthBlock : String → Bytes → Except String Nat) (s : Store)
    (address : String) (hash : Bytes) (h b : Nat)
    (hwf : ethVerifyAddress address = none)
    (hB : GetContractBirthBlock address hash = .ok b) (hb : b + 128 < U64) :
    (h < b + 128 → ∃ msg, VerifyAddress ethVerifyAddress (.ok h) GetContractBirthBlock s
      address hash = .returned (some msg, s)) ∧
    (b + 128 ≤ h → VerifyAddress ethVerifyAddress (.ok h) GetContractBirthBlock s
      address hash = .returned (none, storeWriteContractLogsOffset s address b)) := by
  constructor
  · intro hlt
    refine ⟨"too young " ++ toString b ++ " " ++ toString h, ?_⟩
    unfold VerifyAddress
    simp only [hwf, hB, Nat.mod_eq_of_lt hb, if_pos hlt]
  · intro hge
    unfold VerifyAddress
    simp only [hwf, hB, Nat.mod_eq_of_lt hb]
    rw [if_neg (by omega)]

/-- C3, evaluated at the failing input. With current height `2 ^ 64 - 1` and
birth height `2 ^ 64 - 100` (both RPC queries succeed, the address is well
formed) the address has 99 confirmations; the sum `birth + 128` wraps to 28,
and `VerifyAddress` returns nil and records the birth height. -/
theorem VerifyAddress_accepts_young_address :
    ∃ s1, VerifyAddress (fun _ => none) (.ok (U64 - 1)) (fun _ _ => .ok (U64 - 100))
        (Store.init 0) "0xc0ffee" [] = .returned (none, s1) ∧
      storeReadContractLogsOffset s1 "0xc0ffee" = U64 - 100 ∧
      U64 - 1 < U64 ∧ U64 - 100 < U64 ∧
      (U64 - 1) - (U64 - 100) = 99 ∧ (U64 - 100 + 128) % U64 = 28 := by
  refine ⟨_, rfl, by decide, by decide, by decide, by decide, by decide⟩

/-! ## Notifier setup -/

/-- `SetupNotifier` leaves the address with the empty key in state `initial`,
whatever was stored, so a second call changes nothing more. -/
theorem SetupNotifier_resets (s : Store) (address : String) :
    storeReadContractNotifier (SetupNotifier s address).2 address = some ⟨"", "initial"⟩ ∧
    ∀ a, storeReadContractNotifier (SetupNotifier (SetupNotifier s address).2 address).2 a =
      storeReadContractNotifier (SetupNotifier s address).2 a := by
  constructor
  · simp [SetupNotifier, storeWriteContractNotifier, storeReadContractNotifier]
  · intro a
    by_cases h : a = address <;>
      simp [SetupNotifier, storeWriteContractNotifier, storeReadContractNotifier, h]

/-- C6, evaluated at the failing input. On a store where the address already has
notifier key `k1` in state `running`, `SetupNotifier` returns nil and replaces
the stored record by the empty key in state `initial`. -/
theorem SetupNotifier_overwrites_existing :
    storeReadContractNotifier notifiedStore "0xc0ffee" = some ⟨"k1", "running"⟩ ∧
    (SetupNotifier notifiedStore "0xc0ffee").1 = none ∧
    storeReadContractNotifier (SetupNotifier notifiedStore "0xc0ffee").2 "0xc0ffee" =
      some ⟨"", "initial"⟩ ∧
    storeReadContractNotifier (SetupNotifier notifiedStore "0xc0ffee").2 "0xc0ffee" ≠
      storeReadContractNotifier notifiedStore "0xc0ffee" := by
  refine ⟨by decide, rfl, by decide, by decide⟩

end Quorum

/-! ## Properties of the status handler -/

namespace Rpc

open Quorum (Result)

/-- `RenderError` always writes one response: status 200, JSON content type,
the error text, and the id of the renderer when it is not empty. -/
theorem RenderError_eq {Info : Type} (canMarshal : Info → Bool) (r : Render Info)
    (err : String) :
    r.RenderError canMarshal err = .returned (r.w ++ [{
      contentType := "application/json"
      status := 200
      body := if r.id = "" then [("error", .text err)]
        else [("error", .text err), ("id", .text r.id)] }]) := by
  unfold Render.RenderError Render.render
  by_cases h : r.id = "" <;> simp [h, Body.set, marshalOK]

/-- `RenderData` writes one response when the data encodes as JSON. -/
theorem RenderData_eq {Info : Type} (canMarshal : Info → Bool) (r : Render Info)
    (data : Info) (hm : canMarshal data = true) :
    r.RenderData canMarshal data = .returned (r.w ++ [{
      contentType := "application/json"
      status := 200
      body := if r.id = "" then [("data", .data data)]
        else [("data", .data data), ("id", .text r.id)] }]) := by
  unfold Render.RenderData Render.render
  by_cases h : r.id = "" <;> simp [h, Body.set, marshalOK, hm]

/-- `RenderData` panics, writing nothing, when the data does not encode. -/
theorem RenderData_panics {Info : Type} (canMarshal : Info → Bool) (r : Render Info)
    (data : Info) (hm : canMarshal data = false) :
    r.RenderData canMarshal data = .panicked "json: unsupported type" := by
  unfold Render.RenderData Render.render
  by_cases h : r.id = "" <;> simp [h, Body.set, marshalOK, hm]

/-- The id binding of the two shapes of rendered body. -/
theorem get_id_of_rendered {Info : Type} (k : String) (v : Value Info) (id : String)
    (hk : k ≠ "id") :
    Body.get (if id = "" then [(k, v)] else [(k, v), ("id", .text id)]) "id" =
      if id = "" then none else some (.text id) := by
  by_cases h : id = "" <;> simp [h, Body.get, hk]

/-- C7 as stated fails: the request body `"abc"` decodes to the `getinfo` call
with id `"abc"`, yet the response has no `"id"` key when that request is sent
to the path `/x` (the error is rendered before the body is decoded), and when
it is sent to `/` and the status query panics (the error is rendered by
`handlePanic`). -/
theorem ServeHTTP_drops_request_id :
    demoDecode "abc" = .ok ⟨"abc", "getinfo", []⟩ ∧
    (∃ resp, ServeHTTP demoDecode demoInfo (fun _ => true) "up" ⟨"/x", "POST", "abc"⟩
        = .returned ⟨[resp], 0⟩ ∧
      resp.body.get "error" = some (.text "bad request POST /x") ∧
      resp.body.get "id" = none) ∧
    (∃ resp, ServeHTTP demoDecode panicInfo (fun _ => true) "up" ⟨"/", "POST", "abc"⟩
        = .returned ⟨[resp], 1⟩ ∧
      resp.body.get "error" = some (.text "bad request") ∧
      resp.body.get "id" = none) := by
  refine ⟨rfl, ⟨_, rfl, by decide, by decide⟩, ⟨_, rfl, by decide, by decide⟩⟩

/-- C7, amended. Every response body rendered by `Render`, data or error, has an
`"id"` key if and only if the id held by that `Render` is not empty, and its
value is then that id. `ServeHTTP` always writes exactly one response; it
hands the id of the request to the `Render` only after the path and method
check and the decoding of the body, on the responses of its `switch`: there
a call without id gets no `"id"` key and a call with id `"abc"` gets
`"id": "abc"`. The errors for a wrong path or method or an undecodable body,
and the error written by `handlePanic` after a panic (of the status query or
of the JSON encoding of its value), have no `"id"` key. -/
theorem ServeHTTP_id_echo {St Info : Type} (decode : String → Except String Call)
    (getInfo : St → Result (Except String Info)) (canMarshal : Info → Bool)
    (store : St) (req : Request) :
    (∀ (r : Render Info) (err : String), ∃ resp,
        r.RenderError canMarshal err = .returned (r.w ++ [resp]) ∧
        resp.body.get "id" = if r.id = "" then none else some (.text r.id)) ∧
    (∀ (r : Render Info) (data : Info), canMarshal data = true → ∃ resp,
        r.RenderData canMarshal data = .returned (r.w ++ [resp]) ∧
        resp.body.get "id" = if r.id = "" then none else some (.text r.id)) ∧
    (∀ (r : Render Info) (data : Info), canMarshal data = false →
        ∃ msg, r.RenderData canMarshal data = .panicked msg) ∧
    ∃ resp calls,
      ServeHTTP decode getInfo canMarshal store req = .returned ⟨[resp], calls⟩ ∧
      (req.path ≠ "/" ∨ req.method ≠ "POST" → resp.body.get "id" = none) ∧
      (req.path = "/" → req.method = "POST" →
        (∀ err, decode req.body = .error err → resp.body.get "id" = none) ∧
        (∀ call, decode req.body = .ok call →
          (call.Method ≠ "getinfo" →
            resp.body.get "id" = if call.Id = "" then none else some (.text call.Id)) ∧
          (call.Method = "getinfo" →
            (∀ msg, getInfo store = .panicked msg → resp.body.get "id" = none) ∧
            (∀ err, getInfo store = .returned (.error err) →
              resp.body.get "id" = if call.Id = "" then none else some (.text call.Id)) ∧
            (∀ info, getInfo store = .returned (.ok info) →
              (canMarshal info = true →
                resp.body.get "id" = if call.Id = "" then none else some (.text call.Id)) ∧
              (canMarshal info = false → resp.body.get "id" = none))))) := by
  refine ⟨?_, ?_, ?_, ?_⟩
  · intro r err
    exact ⟨_, RenderError_eq canMarshal r err, get_id_of_rendered _ _ _ (by decide)⟩
  · intro r data hm
    exact ⟨_, RenderData_eq canMarshal r data hm, get_id_of_rendered _ _ _ (by decide)⟩
  · intro r data hm
    exact ⟨_, RenderData_panics canMarshal r data hm⟩
  · have noid : ∀ msg : String,
        Body.get [("error", (Value.text msg : Value Info))] "id" = none := by
      intro msg
      simp [Body.get]
    by_cases hpm : req.path ≠ "/" ∨ req.method ≠ "POST"
    · refine ⟨⟨"application/json", 200,
          [("error", .text ("bad request " ++ req.method ++ " " ++ req.path))]⟩, 0, ?_,
        fun _ => noid _, ?_⟩
      · simp [ServeHTTP, serveBody, hpm, RenderError_eq, handlePanic]
      · intro hp hmeth
        rcases hpm with h | h
        · exact absurd hp h
        · exact absurd hmeth h
    · have hp : req.path = "/" := by
        by_contra h
        exact hpm (Or.inl h)
      have hmeth : req.method = "POST" := by
        by_contra h
        exact hpm (Or.inr h)
      cases hd : decode req.body with
      | error derr =>
        refine ⟨⟨"application/json", 200, [("error", .text ("bad request " ++ derr))]⟩, 0, ?_,
          fun h => absurd h hpm, fun _ _ => ⟨fun _ _ => noid _, ?_⟩⟩
        · simp [ServeHTTP, serveBody, hp, hmeth, hd, RenderError_eq, handlePanic]
        · intro call hc
          cases hc
      | ok call =>
        by_cases hg : call.Method = "getinfo"
        · cases hI : getInfo store with
          | panicked pmsg =>
            refine ⟨⟨"application/json", 200, [("error", .text "bad request")]⟩, 1, ?_,
              fun h => absurd h hpm, fun _ _ => ⟨fun _ h => (by cases h), ?_⟩⟩
            · simp [ServeHTTP, serveBody, hp, hmeth, hd, hg, hI, RenderError_eq, handlePanic]
            · intro c hc
              cases hc
              refine ⟨fun h => absurd hg h, fun _ => ⟨fun _ _ => noid _, ?_, ?_⟩⟩
              · intro e h
                cases h
              · intro i h
                cases h
          | returned res =>
            cases res with
            | error gerr =>
              refine ⟨⟨"application/json", 200, if call.Id = "" then [("error", .text gerr)]
                  else [("error", .text gerr), ("id", .text call.Id)]⟩, 1, ?_,
                fun h => absurd h hpm, fun _ _ => ⟨fun _ h => (by cases h), ?_⟩⟩
              · simp [ServeHTTP, serveBody, hp, hmeth, hd, hg, hI, RenderError_eq, handlePanic]
              · intro c hc
                cases hc
                refine ⟨fun h => absurd hg h, fun _ => ⟨?_, ?_, ?_⟩⟩
                · intro m h
                  cases h
                · intro e _
                  exact get_id_of_rendered "error" (.text gerr) call.Id (by decide)
                · intro i h
                  cases h
            | ok info =>
              cases hcm : canMarshal info with
              | true =>
                refine ⟨⟨"application/json", 200, if call.Id = "" then [("data", .data info)]
                    else [("data", .data info), ("id", .text call.Id)]⟩, 1, ?_,
                  fun h => absurd h hpm, fun _ _ => ⟨fun _ h => (by cases h), ?_⟩⟩
                · simp [ServeHTTP, serveBody, hp, hmeth, hd, hg, hI, RenderData_eq, hcm,
                    handlePanic]
                · intro c hc
                  cases hc
                  refine ⟨fun h => absurd hg h, fun _ => ⟨?_, ?_, ?_⟩⟩
                  · intro m h
                    cases h
                  · intro e h
                    cases h
                  · intro i h
                    cases h
                    refine ⟨fun _ => get_id_of_rendered "data" (.data info) call.Id
                      (by decide), ?_⟩
                    intro hf
                    rw [hcm] at hf
                    cases hf
              | false =>
                refine ⟨⟨"application/json", 200, [("error", .text "bad request")]⟩, 1, ?_,
                  fun h => absurd h hpm, fun _ _ => ⟨fun _ h => (by cases h), ?_⟩⟩
                · simp [ServeHTTP, serveBody, hp, hmeth, hd, hg, hI, RenderData_panics, hcm,
                    RenderError_eq, handlePanic]
                · intro c hc
                  cases hc
                  refine ⟨fun h => absurd hg h, fun _ => ⟨?_, ?_, ?_⟩⟩
                  · intro m h
                    cases h
                  · intro e h
                    cases h
                  · intro i h
                    cases h
                    refine ⟨?_, fun _ => noid _⟩
                    intro ht
                    rw [hcm] at ht
                    cases ht
        · refine ⟨⟨"application/json", 200,
              if call.Id = "" then [("error", .text ("invalid method " ++ call.Method))]
              else [("error", .text ("invalid method " ++ call.Method)),
                ("id", .text call.Id)]⟩, 0, ?_,
            fun h => absurd h hpm, fun _ _ => ⟨fun _ h => (by cases h), ?_⟩⟩
          · simp [ServeHTTP, serveBody, hp, hmeth, hd, hg, RenderError_eq, handlePanic]
          · intro c hc
            cases hc
            exact ⟨fun _ => get_id_of_rendered "error"
              (.text ("invalid method " ++ call.Method)) call.Id (by decide),
              fun h => absurd h hg⟩

/-- Witness of the amended C7: the `getinfo` call with id `"abc"`, sent by
`POST` to `/`, is answered with `"id": "abc"`. -/
theorem ServeHTTP_id_echo_witness :
    ∃ resp calls,
      ServeHTTP demoDecode demoInfo (fun _ => true) "up" ⟨"/", "POST", "abc"⟩
        = .returned ⟨[resp], calls⟩ ∧
      resp.body.get "id" = some (.text "abc") := by
  obtain ⟨resp, calls, h, -, h2⟩ :=
    (ServeHTTP_id_echo demoDecode demoInfo (fun _ => true) "up" ⟨"/", "POST", "abc"⟩).2.2.2
  refine ⟨resp, calls, h, ?_⟩
  have h3 := ((((h2 rfl rfl).2 ⟨"abc", "getinfo", []⟩ rfl).2 rfl).2.2 "up" rfl).1 rfl
  simpa using h3

/-- C8. For a request with a path other than `/`, an HTTP method other than
`POST`, a body that does not decode as a `Call`, or a call of a method other
than `getinfo`, `ServeHTTP` writes exactly one response, with status 200 and
JSON content type, whose object has an `"error"` key holding a string and no
key other than `"error"` and `"id"` (so no `"data"` key), and it makes no call
on the store. -/
theorem ServeHTTP_error_response {St Info : Type} (decode : String → Except String Call)
    (getInfo : St → Result (Except String Info)) (canMarshal : Info → Bool)
    (store : St) (req : Request)
    (hbad : req.path ≠ "/" ∨ req.method ≠ "POST" ∨ (∃ err, decode req.body = .error err) ∨
      ∃ call, decode req.body = .ok call ∧ call.Method ≠ "getinfo") :
    ∃ resp msg,
      ServeHTTP decode getInfo canMarshal store req = .returned ⟨[resp], 0⟩ ∧
      resp.status = 200 ∧ resp.contentType = "application/json" ∧
      resp.body.get "error" = some (.text msg) ∧ resp.body.get "data" = none ∧
      ∀ k, k ≠ "error" → k ≠ "id" → resp.body.get k = none := by
  have shape : ∀ (msg id : String),
      Body.get (if id = "" then [("error", (Value.text msg : Value Info))]
        else [("error", .text msg), ("id", .text id)]) "error" = some (.text msg) ∧
      Body.get (if id = "" then [("error", (Value.text msg : Value Info))]
        else [("error", .text msg), ("id", .text id)]) "data" = none ∧
      ∀ k, k ≠ "error" → k ≠ "id" →
        Body.get (if id = "" then [("error", (Value.text msg : Value Info))]
          else [("error", .text msg), ("id", .text id)]) k = none := by
    intro msg id
    by_cases h : id = ""
    · refine ⟨by simp [h, Body.get], by simp [h, Body.get], ?_⟩
      intro k hk1 _
      simp [h, Body.get, Ne.symm hk1]
    · refine ⟨by simp [h, Body.get], by simp [h, Body.get], ?_⟩
      intro k hk1 hk2
      simp [h, Body.get, Ne.symm hk1, Ne.symm hk2]
  by_cases hpm : req.path ≠ "/" ∨ req.method ≠ "POST"
  · refine ⟨⟨"application/json", 200,
        if ("" : String) = "" then [("error", .text ("bad request " ++ req.method ++ " " ++ req.path))]
        else [("error", .text ("bad request " ++ req.method ++ " " ++ req.path)),
          ("id", .text "")]⟩,
      "bad request " ++ req.method ++ " " ++ req.path, ?_, rfl, rfl, shape _ ""⟩
    simp [ServeHTTP, serveBody, hpm, RenderError_eq, handlePanic]
  · have hp : req.path = "/" := by
      by_contra h
      exact hpm (Or.inl h)
    have hmeth : req.method = "POST" := by
      by_contra h
      exact hpm (Or.inr h)
    rcases hbad with h | h | ⟨err, hd⟩ | ⟨call, hd, hg⟩
    · exact absurd hp h
    · exact absurd hmeth h
    · refine ⟨⟨"application/json", 200,
          if ("" : String) = "" then [("error", .text ("bad request " ++ err))]
          else [("error", .text ("bad request " ++ err)), ("id", .text "")]⟩,
        "bad request " ++ err, ?_, rfl, rfl, shape _ ""⟩
      simp [ServeHTTP, serveBody, hp, hmeth, hd, RenderError_eq, handlePanic]
    · refine ⟨⟨"application/json", 200,
          if call.Id = "" then [("error", .text ("invalid method " ++ call.Method))]
          else [("error", .text ("invalid method " ++ call.Method)), ("id", .text call.Id)]⟩,
        "invalid method " ++ call.Method, ?_, rfl, rfl, shape _ call.Id⟩
      simp [ServeHTTP, serveBody, hp, hmeth, hd, hg, RenderError_eq, handlePanic]

/-- Witness of C8: a `GET` request. -/
theorem ServeHTTP_error_response_witness :
    (("/" : String) ≠ "/" ∨ ("GET" : String) ≠ "POST" ∨
      (∃ err, demoDecode "abc" = .error err) ∨
      ∃ call, demoDecode "abc" = .ok call ∧ call.Method ≠ "getinfo") ∧
    ∃ (resp : Response String) (msg : String),
      ServeHTTP demoDecode demoInfo (fun _ => true) "up" ⟨"/", "GET", "abc"⟩
        = .returned ⟨[resp], 0⟩ ∧
      resp.status = 200 ∧ resp.contentType = "application/json" ∧
      resp.body.get "error" = some (.text msg) ∧ resp.body.get "data" = none ∧
      ∀ k, k ≠ "error" → k ≠ "id" → resp.body.get k = none :=
  ⟨Or.inr (Or.inl (by decide)),
    ServeHTTP_error_response demoDecode demoInfo (fun _ => true) "up" ⟨"/", "GET", "abc"⟩
      (Or.inr (Or.inl (by decide)))⟩

end Rpc
